import Mathlib

/-!
Verification of the model-archiver packaging pipeline
(`model_archiver/model_packaging_utils.py`).

The Python module is shallowly embedded below.  Filesystem state is made
explicit: directory listings, the existence test used by the collision
check, and the set of files visible to the cleanup step are passed as
parameters.  Errors raised with `ModelArchiverError` become constructors of
an error type carrying the data interpolated into the message; archive
containers are modelled by their ordered entry lists, each entry given as
its list of path components (the textual entry name is the components
joined with a slash, see `entry_name`).
-/

/-- Errors raised by the archiver (`ModelArchiverError` in the source), one
constructor per raise site relevant here, carrying the data the source
interpolates into the message. -/
inductive ArchiverError where
  /-- `check_mar_already_exists`: target archive already exists and
  overwrite was not requested; carries the colliding path appended to the
  message. -/
  | archiveExists (path : String)
  /-- `find_unique`: more than one file with the special suffix; carries
  the suffix, the count and the matched filenames from the format call. -/
  | multipleCandidates (suffix : String) (count : Nat) (matched : List String)
  /-- `check_model_name_regex_or_exit`: the name failed the regex filter
  (the source message is fixed text naming the regex). -/
  | invalidName
  /-- `os.remove` on a missing path (`FileNotFoundError`). -/
  | fileNotFound (path : String)
  deriving DecidableEq, Repr

/-- Python `s.endswith(t)`: `t` is a suffix of `s` (character-wise). -/
def str_ends_with (s t : String) : Bool :=
  List.isSuffixOf t.data s.data

/-- Python `s.startswith(t)`: `t` is a prefix of `s` (character-wise). -/
def str_starts_with (s t : String) : Bool :=
  List.isPrefixOf t.data s.data

/-- `posixpath.join(a, b)` for two components, as used by `os.path.join`
in the source: an absolute second component discards the first; otherwise
a single separator is inserted unless `a` is empty or already ends in one. -/
def path_join (a b : String) : String :=
  if str_starts_with b "/" then b
  else if a = "" then b
  else if str_ends_with a "/" then a ++ b
  else a ++ "/" ++ b

/-- `MODEL_ARCHIVE_EXTENSION` from the source. -/
def MODEL_ARCHIVE_EXTENSION : String := ".mar"

/-- `TAR_GZ_EXTENSION` from the source. -/
def TAR_GZ_EXTENSION : String := ".tar.gz"

/-- `MANIFEST_FILE_NAME` from the source. -/
def MANIFEST_FILE_NAME : String := "MANIFEST.json"

/-- `MAR_INF` from the source. -/
def MAR_INF : String := "MAR-INF"

/-- `ONNX_TYPE` from the source. -/
def ONNX_TYPE : String := ".onnx"

/-- `ModelExportUtils.get_archive_export_path`: join the export directory
with the model name plus `.mar` for the `"default"` format and `.tar.gz`
for every other format value. -/
def get_archive_export_path (export_file_path model_name archive_format : String) : String :=
  path_join export_file_path
    (model_name ++ (if archive_format = "default" then MODEL_ARCHIVE_EXTENSION
                    else TAR_GZ_EXTENSION))

/-- `ModelExportUtils.check_mar_already_exists`.  The filesystem existence
test `os.path.exists` is the parameter `file_exists`; the current working
directory used when no export path is given is the parameter `cwd`.  On the
existing-file/no-overwrite path the source raises with the colliding path
appended to the message; otherwise the export directory is returned (a
warning is only logged when overwriting). -/
def check_mar_already_exists (model_name : String) (export_file_path : Option String)
    (overwrite : Bool) (archive_format : String) (cwd : String)
    (file_exists : String → Bool) : Except ArchiverError String :=
  let path := export_file_path.getD cwd
  let export_file := get_archive_export_path path model_name archive_format
  if file_exists export_file then
    if overwrite then .ok path
    else .error (.archiveExists export_file)
  else .ok path

/-- `ModelExportUtils.find_unique`: filter the listing by suffix; zero
matches yield `none`, one match yields it, more raise with the suffix, the
count and the matched names. -/
def find_unique (files : List String) (suffix : String) :
    Except ArchiverError (Option String) :=
  let matched := files.filter (fun f => str_ends_with f suffix)
  let count := matched.length
  if count = 0 then .ok none
  else if count = 1 then .ok (matched.head?.getD "")
  else .error (.multipleCandidates suffix count matched)

/-- The two filenames `convert_onnx_model` generates for a model name
(source lines 139-140: `'%s-symbol.json' % model_name` and
`'%s-0000.params' % model_name`); the conversion's numerical work is an
external collaborator and out of scope, only the returned names matter to
packaging. -/
def convert_onnx_model_names (model_name : String) : String × String :=
  (model_name ++ "-symbol.json", model_name ++ "-0000.params")

/-- `ModelExportUtils.check_custom_model_types`.  The directory listing
`os.listdir(model_path)` is the parameter `listing`.  With a unique
`.onnx` file the conversion collaborator runs and its two generated
filenames, joined to the model path, become the temp files while the onnx
file becomes the sole excluded original; with none, both lists stay empty. -/
def check_custom_model_types (model_path : String) (model_name : String)
    (listing : List String) : Except ArchiverError (List String × List String) := do
  let onnx_file ← find_unique listing ONNX_TYPE
  match onnx_file with
  | some f =>
      let names := convert_onnx_model_names model_name
      let temp_files := [path_join model_path names.1, path_join model_path names.2]
      let files_to_exclude := [f]
      return (temp_files, files_to_exclude)
  | none => return ([], [])

-- Name validation -------------------------------------------------------

/-- ASCII `[A-Za-z0-9]`, the first-character class of the name regex. -/
def is_ascii_alnum (c : Char) : Bool :=
  (Char.ofNat 65 ≤ c && c ≤ Char.ofNat 90) ||
  (Char.ofNat 97 ≤ c && c ≤ Char.ofNat 122) ||
  (Char.ofNat 48 ≤ c && c ≤ Char.ofNat 57)

/-- The tail character class `[A-Za-z0-9_\-.]` of the name regex. -/
def is_name_char (c : Char) : Bool :=
  is_ascii_alnum c || c = '_' || c = '-' || c = '.'

/-- One full match of `[A-Za-z0-9][A-Za-z0-9_\-.]*` against a whole
character sequence. -/
def name_core_match : List Char → Bool
  | [] => false
  | c :: rest => is_ascii_alnum c && rest.all is_name_char

/-- Python `re.match` of the anchored pattern
`^[A-Za-z0-9][A-Za-z0-9_\-.]*$` against `cs`: in Python, `$` (without
`re.MULTILINE`) matches at the end of the string and also just before one
trailing newline, so the pattern accepts a core match optionally followed
by a single final newline. -/
def re_match_name (cs : List Char) : Bool :=
  name_core_match cs ||
  (cs.getLast? = some (Char.ofNat 10) && name_core_match cs.dropLast)

/-- `ModelExportUtils.check_model_name_regex_or_exit`: raise unless the
name matches the anchored regex; the source's message is fixed text. -/
def check_model_name_regex_or_exit (model_name : String) :
    Except ArchiverError Unit :=
  if re_match_name model_name.data then .ok ()
  else .error .invalidName

-- Directory trees and the archive walk -----------------------------------

mutual

/-- A directory as `os.walk` sees it: its file names and its named
subdirectories. -/
inductive FsTree where
  | node (files : List String) (subdirs : FsForest) : FsTree

/-- The ordered list of named subdirectories of a directory. -/
inductive FsForest where
  | nil : FsForest
  | cons (name : String) (tree : FsTree) (rest : FsForest) : FsForest

end

/-- The `unwanted_dirs` set from `ModelExportUtils.archive_dir`. -/
def unwanted_dirs : List String := ["__MACOSX", "__pycache__"]

/-- `ModelExportUtils.directory_filter`: reject directories in the
unwanted set and dot-prefixed directories. -/
def directory_filter (directory : String) (unwanted : List String) : Bool :=
  if directory ∈ unwanted then false
  else if str_starts_with directory "." then false
  else true

/-- `ModelExportUtils.file_filter`: the reserved manifest filename is
added to the exclusion set, then excluded names and the three unwanted
suffixes are rejected. -/
def file_filter (current_file : String) (files_to_exclude : List String) : Bool :=
  let excl := MANIFEST_FILE_NAME :: files_to_exclude
  if current_file ∈ excl then false
  else if str_ends_with current_file ".pyc" || str_ends_with current_file ".DS_Store" ||
          str_ends_with current_file ".mar" then false
  else true

mutual

/-- `ModelExportUtils.archive_dir` on the `os.walk` tree rooted at the
model path: top-down, each level first emits its filter-accepted files
and then recurses into its filter-accepted subdirectories.  `pre` is the
relative path from the walk root to the current directory, as components;
a file `f` here has `os.path.relpath(file_path, path) = pre ++ [f]`, and
the tgz format prepends the model name to the written arcname. -/
def archive_dir (excl : List String) (fmt : String) (model_name : String)
    (pre : List String) : FsTree → List (List String)
  | .node files subdirs =>
      (files.filter (fun f => file_filter f excl)).map
        (fun f => if fmt = "tgz" then model_name :: (pre ++ [f]) else pre ++ [f]) ++
      archive_forest excl fmt model_name pre subdirs

/-- The subdirectory loop of `archive_dir`: `directories[:]` is filtered
in place, pruning the walk below rejected names. -/
def archive_forest (excl : List String) (fmt : String) (model_name : String)
    (pre : List String) : FsForest → List (List String)
  | .nil => []
  | .cons d t rest =>
      (if directory_filter d unwanted_dirs then
        archive_dir excl fmt model_name (pre ++ [d]) t
      else []) ++
      archive_forest excl fmt model_name pre rest

end

/-- `ModelExportUtils.archive`, abstracted to the entry list it writes
(entries as path components, in write order).  `"default"` writes the
walked entries then the manifest at `MAR-INF/MANIFEST.json`; `"tgz"` does
the same with every arcname, manifest included, rooted under the model
name; any other format only logs an error and returns, writing nothing
and raising nothing. -/
def archive (model_name : String) (tree : FsTree) (files_to_exclude : List String)
    (archive_format : String) : Except ArchiverError (List (List String)) :=
  if archive_format = "default" then
    .ok (archive_dir files_to_exclude archive_format model_name [] tree ++
         [[MAR_INF, MANIFEST_FILE_NAME]])
  else if archive_format = "tgz" then
    .ok (archive_dir files_to_exclude archive_format model_name [] tree ++
         [[model_name, MAR_INF, MANIFEST_FILE_NAME]])
  else
    .ok []

/-- The textual name of a container entry given as path components: the
components joined with a slash separator, as `os.path.join` and
`os.path.relpath` produce them. -/
def entry_name : List String → String
  | [] => ""
  | [f] => f
  | d :: rest => d ++ "/" ++ entry_name rest

mutual

/-- Every file path in a tree, as components relative to the root, in walk
order, with no filtering: the reference denotation of the source tree. -/
def all_paths_tree : FsTree → List (List String)
  | .node files subdirs => files.map (fun f => [f]) ++ all_paths_forest subdirs

/-- Forest companion of `all_paths_tree`. -/
def all_paths_forest : FsForest → List (List String)
  | .nil => []
  | .cons d t rest => (all_paths_tree t).map (fun p => d :: p) ++ all_paths_forest rest

end

/-- A path (as components) is accepted by the packaging filters: every
directory component passes `directory_filter` and the final file
component passes `file_filter`. -/
def good_path (excl : List String) : List String → Bool
  | [] => false
  | [f] => file_filter f excl
  | d :: rest => directory_filter d unwanted_dirs && good_path excl rest

mutual

/-- `ModelExportUtils.clean_temp_files`: `os.remove` each path in order.
The filesystem is the list `fs` of existing paths; a missing path raises
`FileNotFoundError`, which is not caught, so the loop stops there and the
filesystem state reached so far is kept. -/
def clean_temp_files (fs : List String) : List String → List String × Option ArchiverError
  | [] => (fs, none)
  | f :: rest =>
      match os_remove fs f with
      | .ok fs2 => clean_temp_files fs2 rest
      | .error e => (fs, some e)

/-- `os.remove`: delete an existing path or raise `FileNotFoundError`. -/
def os_remove (fs : List String) (f : String) : Except ArchiverError (List String) :=
  if f ∈ fs then .ok (fs.erase f) else .error (.fileNotFound f)

end

-- Manifest generation ----------------------------------------------------

/-- The manifest inputs as `generate_manifest_json` reads them off the
parsed argument namespace: the model identity and handler, the runtime,
and the optional engine name and publisher author/email (an absent
optional argument is an absent key in `vars(args)`). -/
structure ManifestArgs where
  model_name : String
  handler : String
  runtime : String
  engine : Option String
  author : Option String
  email : Option String
  createdOn : String
  deriving DecidableEq, Repr

/-- A JSON string literal for a name that needs no escaping. -/
def json_str (s : String) : String := "\"" ++ s ++ "\""

/-- Modelled from the spec: the `Model` manifest component
(`manifest_components/model.py` is not under `src/`), serialized per the
spec's canonical shape `\x7b"modelName": ..., "handler": ...\x7d`. -/
def model_section (a : ManifestArgs) : String :=
  "\x7b\"modelName\": " ++ json_str a.model_name ++ ", \"handler\": " ++
    json_str a.handler ++ "\x7d"

/-- Modelled from the spec: the `Engine` component serialized as
`\x7b"engineName": ...\x7d`. -/
def engine_section (engine : String) : String :=
  "\x7b\"engineName\": " ++ json_str engine ++ "\x7d"

/-- Modelled from the spec: the `Publisher` component serialized as
`\x7b"author": ..., "email": ...\x7d`. -/
def publisher_section (author email : String) : String :=
  "\x7b\"author\": " ++ json_str author ++ ", \"email\": " ++ json_str email ++ "\x7d"

/-- Modelled from the spec: the ordered key/value sections of the manifest
produced by `generate_manifest_json`.  The `Manifest` class itself
(`manifest_components/manifest.py`) is not under `src/`; the spec gives
the canonical field order `createdOn, runtime, model, engine?, publisher?,
archiverVersion`, with the engine section present exactly when an engine
was supplied and the publisher section present exactly when author and
email were both supplied (the source's `'author' in arg_dict and 'email'
in arg_dict` / `'engine' in arg_dict` tests).  The spec declares the
builder a pure function of its inputs, so the `createdOn` timestamp is
taken as an input. -/
def manifest_sections (a : ManifestArgs) : List (String × String) :=
  [("createdOn", json_str a.createdOn), ("runtime", json_str a.runtime),
   ("model", model_section a)] ++
  (match a.engine with
   | some e => [("engine", engine_section e)]
   | none => []) ++
  (match a.author, a.email with
   | some au, some em => [("publisher", publisher_section au em)]
   | _, _ => []) ++
  [("archiverVersion", json_str "1.0")]

/-- Render an ordered section list as one JSON object. -/
def render_sections (sections : List (String × String)) : String :=
  "\x7b" ++ String.intercalate ", "
    (sections.map (fun kv => json_str kv.1 ++ ": " ++ kv.2)) ++ "\x7d"

/-- `ModelExportUtils.generate_manifest_json`: build the manifest record
from the arguments and serialize it (`str(manifest)`), per the
spec-modelled section list above. -/
def generate_manifest_json (a : ManifestArgs) : String :=
  render_sections (manifest_sections a)

-- Theorems ---------------------------------------------------------------

/-- C8: for every export directory and name, the computed target archive
path is the export directory joined with `<name>.mar` for the default
format and with `<name>.tar.gz` for the tgz format. -/
theorem c8_target_path (export_dir name : String) :
    get_archive_export_path export_dir name "default" =
      path_join export_dir (name ++ ".mar") ∧
    get_archive_export_path export_dir name "tgz" =
      path_join export_dir (name ++ ".tar.gz") := by
  refine ⟨?_, ?_⟩ <;>
    simp [get_archive_export_path, MODEL_ARCHIVE_EXTENSION, TAR_GZ_EXTENSION]

/-- C5: with a file already present at the computed target path the
collision check fails with `ArchiveExists` naming that path when
overwrite is off and returns the export directory without error when
overwrite is on; with no file at the target path it returns without error
for either overwrite value. -/
theorem c5_collision_guard (export_dir name fmt cwd : String) (overwrite : Bool)
    (file_exists : String → Bool) :
    (file_exists (get_archive_export_path export_dir name fmt) = true →
      overwrite = false →
      check_mar_already_exists name (some export_dir) overwrite fmt cwd file_exists =
        .error (.archiveExists (get_archive_export_path export_dir name fmt))) ∧
    (file_exists (get_archive_export_path export_dir name fmt) = true →
      overwrite = true →
      check_mar_already_exists name (some export_dir) overwrite fmt cwd file_exists =
        .ok export_dir) ∧
    (file_exists (get_archive_export_path export_dir name fmt) = false →
      check_mar_already_exists name (some export_dir) overwrite fmt cwd file_exists =
        .ok export_dir) := by
  refine ⟨?_, ?_, ?_⟩ <;> intro h1 <;>
    simp [check_mar_already_exists, h1]

/-- Witness for C5 at a concrete filesystem: `/out/m.mar` exists, so
overwrite off fails with the colliding path, overwrite on succeeds, and a
different target succeeds. -/
theorem c5_collision_guard_witness :
    ((fun s => s == "/out/m.mar") (get_archive_export_path "/out" "m" "default") = true ∧
      check_mar_already_exists "m" (some "/out") false "default" "/cwd"
        (fun s => s == "/out/m.mar") = .error (.archiveExists "/out/m.mar")) ∧
    (check_mar_already_exists "m" (some "/out") true "default" "/cwd"
        (fun s => s == "/out/m.mar") = .ok "/out") ∧
    ((fun s => s == "/out/m.mar") (get_archive_export_path "/out" "m" "tgz") = false ∧
      check_mar_already_exists "m" (some "/out") false "tgz" "/cwd"
        (fun s => s == "/out/m.mar") = .ok "/out") := by
  refine ⟨⟨by decide, ?_⟩, ?_, by decide, ?_⟩
  · exact ((c5_collision_guard "/out" "m" "default" "/cwd" false
      (fun s => s == "/out/m.mar")).1 (by decide) rfl).trans (by rfl)
  · exact ((c5_collision_guard "/out" "m" "default" "/cwd" true
      (fun s => s == "/out/m.mar")).2.1 (by decide) rfl)
  · exact ((c5_collision_guard "/out" "m" "tgz" "/cwd" false
      (fun s => s == "/out/m.mar")).2.2 (by decide))

/-- C4: with no `.onnx` file in the listing the resolver returns two empty
collections; with exactly one it returns the two generated temp paths
(size 2) and that file as the sole excluded original (size 1); with two or
more it fails with a `multipleCandidates` error carrying the extension,
the count and the matched filenames. -/
theorem c4_exclusion_resolver (model_path model_name : String) (listing : List String) :
    (listing.filter (fun f => str_ends_with f ONNX_TYPE) = [] →
      check_custom_model_types model_path model_name listing = .ok ([], [])) ∧
    (∀ f, listing.filter (fun g => str_ends_with g ONNX_TYPE) = [f] →
      check_custom_model_types model_path model_name listing =
        .ok ([path_join model_path (model_name ++ "-symbol.json"),
              path_join model_path (model_name ++ "-0000.params")], [f])) ∧
    (2 ≤ (listing.filter (fun f => str_ends_with f ONNX_TYPE)).length →
      check_custom_model_types model_path model_name listing =
        .error (.multipleCandidates ONNX_TYPE
          (listing.filter (fun f => str_ends_with f ONNX_TYPE)).length
          (listing.filter (fun f => str_ends_with f ONNX_TYPE)))) := by
  refine ⟨?_, ?_, ?_⟩
  · intro h
    simp [check_custom_model_types, find_unique, h, Except.bind, bind, pure, Except.pure]
  · intro f h
    simp [check_custom_model_types, find_unique, h, convert_onnx_model_names, Except.bind, bind, pure, Except.pure]
  · intro h
    have h0 : ¬ (listing.filter (fun f => str_ends_with f ONNX_TYPE)).length = 0 := by omega
    have h1 : ¬ (listing.filter (fun f => str_ends_with f ONNX_TYPE)).length = 1 := by omega
    simp [check_custom_model_types, find_unique, h0, h1, Except.bind, bind, pure, Except.pure]

/-- Witness for C4 on three concrete listings: zero, one and two `.onnx`
files. -/
theorem c4_exclusion_resolver_witness :
    check_custom_model_types "/m" "n" ["w.params"] = .ok ([], []) ∧
    check_custom_model_types "/m" "n" ["a.onnx", "w.params"] =
      .ok (["/m/n-symbol.json", "/m/n-0000.params"], ["a.onnx"]) ∧
    check_custom_model_types "/m" "n" ["a.onnx", "b.onnx"] =
      .error (.multipleCandidates ".onnx" 2 ["a.onnx", "b.onnx"]) := by
  refine ⟨(c4_exclusion_resolver "/m" "n" ["w.params"]).1 (by decide), ?_, ?_⟩
  · exact ((c4_exclusion_resolver "/m" "n" ["a.onnx", "w.params"]).2.1 "a.onnx"
      (by decide)).trans (by rfl)
  · exact ((c4_exclusion_resolver "/m" "n" ["a.onnx", "b.onnx"]).2.2
      (by decide)).trans (by rfl)

/-- C10: for any archive format other than `"default"` and `"tgz"` the
archive operation raises no error and writes no entries: it returns
normally with an empty entry list. -/
theorem c10_unknown_format_noop (model_name fmt : String) (tree : FsTree)
    (excl : List String) :
    fmt ≠ "default" → fmt ≠ "tgz" →
    archive model_name tree excl fmt = .ok [] := by
  intro h1 h2
  simp [archive, h1, h2]

/-- Witness for C10 at the unrecognized format `"zip"`. -/
theorem c10_unknown_format_noop_witness :
    archive "m" (.node ["handler.py"] .nil) [] "zip" = .ok [] :=
  c10_unknown_format_noop "m" "zip" (.node ["handler.py"] .nil) []
    (by decide) (by decide)

/-- Processing a cleanup list splits at a successfully processed part:
after the error-free deletions of `pre` the loop continues on the rest
from the reached filesystem state. -/
theorem clean_temp_files_append (pre l : List String) :
    ∀ fs fs1 : List String, clean_temp_files fs pre = (fs1, none) →
      clean_temp_files fs (pre ++ l) = clean_temp_files fs1 l := by
  induction pre with
  | nil =>
      intro fs fs1 h
      simp [clean_temp_files] at h
      simp [h]
  | cons f rest ih =>
      intro fs fs1 h
      cases hrem : os_remove fs f with
      | ok fs2 =>
          simp [clean_temp_files, hrem] at h ⊢
          exact ih fs2 fs1 h
      | error e =>
          simp [clean_temp_files, hrem] at h

/-- C9: cleanup deletes the temp paths in order; a deletion error on a
missing path is not caught, so it propagates and every later path in the
sequence remains undeleted (the filesystem stays as it was when the error
was raised). -/
theorem c9_cleanup_error_propagates (fs fs1 pre post : List String) (f : String) :
    clean_temp_files fs pre = (fs1, none) →
    f ∉ fs1 →
    clean_temp_files fs (pre ++ f :: post) = (fs1, some (.fileNotFound f)) ∧
    (∀ g ∈ post, g ∈ fs1 → g ∈ (clean_temp_files fs (pre ++ f :: post)).1) := by
  intro h hf
  have hsplit := clean_temp_files_append pre (f :: post) fs fs1 h
  have hrem : os_remove fs1 f = .error (.fileNotFound f) := by
    simp [os_remove, hf]
  have hres : clean_temp_files fs (pre ++ f :: post) = (fs1, some (.fileNotFound f)) := by
    rw [hsplit]
    simp [clean_temp_files, hrem]
  refine ⟨hres, ?_⟩
  intro g _ hg
  rw [hres]
  exact hg

/-- Witness for C9: deleting `a`, then the missing `b`, then `c` from the
filesystem holding `a` and `c` stops at `b` with the error and leaves `c`
in place. -/
theorem c9_cleanup_error_propagates_witness :
    clean_temp_files ["a", "c"] ["a"] = (["c"], none) ∧
    "b" ∉ ["c"] ∧
    clean_temp_files ["a", "c"] (["a"] ++ "b" :: ["c"]) =
      (["c"], some (.fileNotFound "b")) ∧
    (∀ g ∈ ["c"], g ∈ (["c"] : List String) →
      g ∈ (clean_temp_files ["a", "c"] (["a"] ++ "b" :: ["c"])).1) := by
  have h := c9_cleanup_error_propagates ["a", "c"] ["c"] ["a"] ["c"] "b"
    (by decide) (by decide)
  exact ⟨by decide, by decide, h.1, h.2⟩

/-- C6: manifest generation is deterministic — two invocations on
identical argument records produce byte-identical manifest text. -/
theorem c6_manifest_deterministic (a b : ManifestArgs) :
    a = b → generate_manifest_json a = generate_manifest_json b := by
  intro h
  rw [h]

/-- Witness for C6 at concrete arguments, with the produced text spelled
out. -/
theorem c6_manifest_deterministic_witness :
    generate_manifest_json ⟨"m", "h.py", "python", some "MXNet", some "au",
        some "em", "t"⟩ =
      generate_manifest_json ⟨"m", "h.py", "python", some "MXNet", some "au",
        some "em", "t"⟩ ∧
    generate_manifest_json ⟨"m", "h.py", "python", some "MXNet", some "au",
        some "em", "t"⟩ =
      "\x7b\"createdOn\": \"t\", \"runtime\": \"python\", \"model\": \x7b\"modelName\": \"m\", \"handler\": \"h.py\"\x7d, \"engine\": \x7b\"engineName\": \"MXNet\"\x7d, \"publisher\": \x7b\"author\": \"au\", \"email\": \"em\"\x7d, \"archiverVersion\": \"1.0\"\x7d" := by
  exact ⟨c6_manifest_deterministic _ _ rfl, by rfl⟩

/-- C7: the serialized manifest has an engine section exactly when an
engine name was supplied, and a publisher section exactly when author and
email were both supplied; the manifest text renders exactly these
sections. -/
theorem c7_optional_sections (a : ManifestArgs) :
    ((∃ v, ("engine", v) ∈ manifest_sections a) ↔ a.engine.isSome = true) ∧
    ((∃ v, ("publisher", v) ∈ manifest_sections a) ↔
      (a.author.isSome = true ∧ a.email.isSome = true)) ∧
    generate_manifest_json a = render_sections (manifest_sections a) := by
  refine ⟨?_, ?_, rfl⟩ <;>
    rcases he : a.engine with _ | e <;>
    rcases ha : a.author with _ | au <;>
    rcases hb : a.email with _ | em <;>
    simp [manifest_sections, he, ha, hb]

/-- The naming policy exactly as the spec words it: first character
alphanumeric, each remaining character alphanumeric, underscore, hyphen or
dot. -/
def name_policy (cs : List Char) : Prop :=
  ∃ c rest, cs = c :: rest ∧ is_ascii_alnum c = true ∧
    ∀ x ∈ rest, is_name_char x = true

/-- The executable core match agrees with the spec's naming policy. -/
theorem name_core_match_iff (cs : List Char) :
    name_core_match cs = true ↔ name_policy cs := by
  cases cs with
  | nil => simp [name_core_match, name_policy]
  | cons c rest =>
      simp only [name_core_match, name_policy, List.all_eq_true,
        Bool.and_eq_true, List.cons.injEq]
      constructor
      · rintro ⟨h1, h2⟩
        exact ⟨c, rest, ⟨rfl, rfl⟩, h1, h2⟩
      · rintro ⟨c1, r1, ⟨rfl, rfl⟩, h1, h2⟩
        exact ⟨h1, h2⟩

/-- C3 counterexample: the string `"a\n"` contains a newline, which is
outside the allowed character set, yet name validation succeeds on it —
Python's `$` anchor also matches just before one trailing newline. -/
theorem c3_name_validation_counterexample :
    Char.ofNat 10 ∈ ("a\n" : String).data ∧
    is_name_char (Char.ofNat 10) = false ∧
    is_ascii_alnum (Char.ofNat 10) = false ∧
    check_model_name_regex_or_exit "a\n" = .ok () := by
  refine ⟨by decide, by decide, by decide, ?_⟩
  rfl

/-- C3 amended: name validation succeeds exactly on the strings matching
the spec's naming policy, possibly followed by one trailing newline (the
Python `$` semantics); every other string fails with `InvalidName`. -/
theorem c3_name_validation_amended (s : String) :
    (check_model_name_regex_or_exit s = .ok () ↔
      (name_policy s.data ∨
        (s.data.getLast? = some (Char.ofNat 10) ∧ name_policy s.data.dropLast))) ∧
    (check_model_name_regex_or_exit s ≠ .ok () →
      check_model_name_regex_or_exit s = .error .invalidName) := by
  have hok : check_model_name_regex_or_exit s = .ok () ↔
      re_match_name s.data = true := by
    unfold check_model_name_regex_or_exit
    rcases h : re_match_name s.data <;> simp [h]
  constructor
  · rw [hok]
    simp [re_match_name, Bool.or_eq_true, Bool.and_eq_true, name_core_match_iff,
      decide_eq_true_eq]
  · intro hne
    unfold check_model_name_regex_or_exit at hne ⊢
    rcases h : re_match_name s.data <;> simp [h] at hne ⊢

-- Walk characterization --------------------------------------------------

mutual

/-- Every path listed by `all_paths_tree` ends in a file, so is nonempty. -/
theorem all_paths_tree_ne_nil (t : FsTree) : ∀ q ∈ all_paths_tree t, q ≠ [] := by
  cases t with
  | node files subdirs =>
      intro q hq
      rw [all_paths_tree] at hq
      rcases List.mem_append.1 hq with h | h
      · rcases List.mem_map.1 h with ⟨f, _, rfl⟩
        simp
      · exact all_paths_forest_ne_nil subdirs q h

/-- Forest companion of `all_paths_tree_ne_nil`. -/
theorem all_paths_forest_ne_nil (fo : FsForest) : ∀ q ∈ all_paths_forest fo, q ≠ [] := by
  cases fo with
  | nil =>
      intro q hq
      simp [all_paths_forest] at hq
  | cons d t rest =>
      intro q hq
      rw [all_paths_forest] at hq
      rcases List.mem_append.1 hq with h | h
      · rcases List.mem_map.1 h with ⟨p, _, rfl⟩
        simp
      · exact all_paths_forest_ne_nil rest q h

end

/-- `good_path` on a single component is the file filter. -/
theorem good_path_single (excl : List String) (f : String) :
    good_path excl [f] = file_filter f excl := rfl

/-- `good_path` on a longer path splits off the directory filter of its
head. -/
theorem good_path_cons (excl : List String) (d : String) (q : List String)
    (hq : q ≠ []) :
    good_path excl (d :: q) =
      (directory_filter d unwanted_dirs && good_path excl q) := by
  cases q with
  | nil => exact absurd rfl hq
  | cons a l => rfl

/-- The arcname written for a file reached at relative path `pre ++ q`
from the walk root: the tgz format roots it under the model name. -/
def arc_entry (fmt model_name : String) (pre q : List String) : List String :=
  if fmt = "tgz" then model_name :: (pre ++ q) else pre ++ q

/-- Pushing one directory component of the relative path into the walk
prefix leaves the written arcname unchanged. -/
theorem arc_entry_append (fmt model_name : String) (pre : List String)
    (d : String) (q : List String) :
    arc_entry fmt model_name pre (d :: q) =
      arc_entry fmt model_name (pre ++ [d]) q := by
  simp [arc_entry]

mutual

/-- The entries `archive_dir` writes from a tree are exactly the arcnames
of the filter-accepted paths of that tree. -/
theorem mem_archive_dir (excl : List String) (fmt model_name : String)
    (t : FsTree) : ∀ pre p,
    (p ∈ archive_dir excl fmt model_name pre t ↔
      ∃ q, q ∈ all_paths_tree t ∧ good_path excl q = true ∧
        p = arc_entry fmt model_name pre q) := by
  cases t with
  | node files subdirs =>
      intro pre p
      rw [archive_dir, all_paths_tree]
      constructor
      · intro hp
        rcases List.mem_append.1 hp with h | h
        · rcases List.mem_map.1 h with ⟨f, hf, rfl⟩
          have hff := (List.mem_filter.1 hf).2
          refine ⟨[f], ?_, ?_, rfl⟩
          · exact List.mem_append.2 (Or.inl (List.mem_map.2 ⟨f, (List.mem_filter.1 hf).1, rfl⟩))
          · rw [good_path_single]
            exact hff
        · obtain ⟨q, hq, hg, rfl⟩ :=
            (mem_archive_forest excl fmt model_name subdirs pre p).1 h
          exact ⟨q, List.mem_append.2 (Or.inr hq), hg, rfl⟩
      · rintro ⟨q, hq, hg, rfl⟩
        rcases List.mem_append.1 hq with h | h
        · rcases List.mem_map.1 h with ⟨f, hf, rfl⟩
          rw [good_path_single] at hg
          exact List.mem_append.2 (Or.inl
            (List.mem_map.2 ⟨f, List.mem_filter.2 ⟨hf, hg⟩, rfl⟩))
        · exact List.mem_append.2 (Or.inr
            ((mem_archive_forest excl fmt model_name subdirs pre _).2 ⟨q, h, hg, rfl⟩))

/-- Forest companion of `mem_archive_dir`: the subdirectory loop prunes
rejected directory names, below which nothing is written. -/
theorem mem_archive_forest (excl : List String) (fmt model_name : String)
    (fo : FsForest) : ∀ pre p,
    (p ∈ archive_forest excl fmt model_name pre fo ↔
      ∃ q, q ∈ all_paths_forest fo ∧ good_path excl q = true ∧
        p = arc_entry fmt model_name pre q) := by
  cases fo with
  | nil =>
      intro pre p
      simp [archive_forest, all_paths_forest]
  | cons d t rest =>
      intro pre p
      rw [archive_forest, all_paths_forest]
      by_cases hd : directory_filter d unwanted_dirs = true
      · rw [if_pos hd]
        constructor
        · intro hp
          rcases List.mem_append.1 hp with h | h
          · obtain ⟨q', hq', hg', rfl⟩ :=
              (mem_archive_dir excl fmt model_name t (pre ++ [d]) p).1 h
            refine ⟨d :: q', ?_, ?_, (arc_entry_append fmt model_name pre d q').symm⟩
            · exact List.mem_append.2 (Or.inl (List.mem_map.2 ⟨q', hq', rfl⟩))
            · rw [good_path_cons excl d q' (all_paths_tree_ne_nil t q' hq')]
              simp [hd, hg']
          · obtain ⟨q, hq, hg, rfl⟩ :=
              (mem_archive_forest excl fmt model_name rest pre p).1 h
            exact ⟨q, List.mem_append.2 (Or.inr hq), hg, rfl⟩
        · rintro ⟨q, hq, hg, rfl⟩
          rcases List.mem_append.1 hq with h | h
          · rcases List.mem_map.1 h with ⟨q', hq', rfl⟩
            rw [good_path_cons excl d q' (all_paths_tree_ne_nil t q' hq')] at hg
            rw [Bool.and_eq_true] at hg
            have hg' := hg.2
            refine List.mem_append.2 (Or.inl ?_)
            rw [arc_entry_append fmt model_name pre d q']
            exact (mem_archive_dir excl fmt model_name t (pre ++ [d]) _).2
              ⟨q', hq', hg', rfl⟩
          · exact List.mem_append.2 (Or.inr
              ((mem_archive_forest excl fmt model_name rest pre _).2 ⟨q, h, hg, rfl⟩))
      · rw [if_neg hd]
        simp only [List.nil_append]
        constructor
        · intro hp
          obtain ⟨q, hq, hg, rfl⟩ :=
            (mem_archive_forest excl fmt model_name rest pre p).1 hp
          exact ⟨q, List.mem_append.2 (Or.inr hq), hg, rfl⟩
        · rintro ⟨q, hq, hg, rfl⟩
          rcases List.mem_append.1 hq with h | h
          · rcases List.mem_map.1 h with ⟨q', hq', rfl⟩
            rw [good_path_cons excl d q' (all_paths_tree_ne_nil t q' hq')] at hg
            rw [Bool.and_eq_true] at hg
            exact absurd hg.1 hd
          · exact (mem_archive_forest excl fmt model_name rest pre _).2 ⟨q, h, hg, rfl⟩

end

-- Entry cleanliness ------------------------------------------------------

/-- What the spec's C1 invariant demands of a non-manifest container
entry (given as path components): nonempty, no directory component in the
unwanted set or dot-prefixed, and a base filename that is not the
reserved manifest name, not excluded, and carries none of the unwanted
suffixes. -/
def clean_entry (excl : List String) (p : List String) : Prop :=
  p ≠ [] ∧
  (∀ d ∈ p.dropLast, d ∉ unwanted_dirs ∧ str_starts_with d "." = false) ∧
  p.getLastD "" ≠ MANIFEST_FILE_NAME ∧
  p.getLastD "" ∉ excl ∧
  str_ends_with (p.getLastD "") ".pyc" = false ∧
  str_ends_with (p.getLastD "") ".DS_Store" = false ∧
  str_ends_with (p.getLastD "") ".mar" = false

/-- A file name accepted by `file_filter` is not the manifest name, not
excluded, and has none of the unwanted suffixes. -/
theorem file_filter_spec (f : String) (excl : List String)
    (h : file_filter f excl = true) :
    f ≠ MANIFEST_FILE_NAME ∧ f ∉ excl ∧ str_ends_with f ".pyc" = false ∧
      str_ends_with f ".DS_Store" = false ∧ str_ends_with f ".mar" = false := by
  simp only [file_filter] at h
  by_cases hm : f ∈ MANIFEST_FILE_NAME :: excl
  · simp [hm] at h
  · rw [if_neg hm] at h
    by_cases hs : (str_ends_with f ".pyc" || str_ends_with f ".DS_Store" ||
        str_ends_with f ".mar") = true
    · simp [hs] at h
    · rw [List.mem_cons, not_or] at hm
      simp only [Bool.or_eq_true, not_or, Bool.not_eq_true] at hs
      exact ⟨hm.1, hm.2, hs.1.1, hs.1.2, hs.2⟩

/-- A directory name accepted by `directory_filter` is outside the
unwanted set and not dot-prefixed. -/
theorem directory_filter_spec (d : String) (h : directory_filter d unwanted_dirs = true) :
    d ∉ unwanted_dirs ∧ str_starts_with d "." = false := by
  unfold directory_filter at h
  split_ifs at h with h1 h2
  exact ⟨h1, by simp_all⟩

/-- Every filter-accepted path satisfies the C1 entry invariant. -/
theorem good_path_clean (excl : List String) :
    ∀ q, good_path excl q = true → clean_entry excl q := by
  intro q
  induction q with
  | nil => intro h; simp [good_path] at h
  | cons a l ih =>
      cases l with
      | nil =>
          intro h
          rw [good_path_single] at h
          obtain ⟨h1, h2, h3, h4, h5⟩ := file_filter_spec a excl h
          exact ⟨by simp, by simp, h1, h2, h3, h4, h5⟩
      | cons b m =>
          intro h
          rw [good_path_cons excl a (b :: m) (by simp)] at h
          rw [Bool.and_eq_true] at h
          obtain ⟨hd, hg⟩ := h
          obtain ⟨_, hdirs, h1, h2, h3, h4, h5⟩ := ih hg
          refine ⟨by simp, ?_, ?_, ?_, ?_, ?_, ?_⟩
          · intro x hx
            rw [List.dropLast_cons₂] at hx
            rcases List.mem_cons.1 hx with rfl | hx
            · exact directory_filter_spec x hd
            · exact hdirs x hx
          all_goals
            simp only [List.getLastD_cons] at h1 h2 h3 h4 h5 ⊢
            assumption

/-- A name accepted by the regex starts with an ASCII alphanumeric
character (both with and without the tolerated trailing newline). -/
theorem re_match_name_head (cs : List Char) (h : re_match_name cs = true) :
    ∃ c rest, cs = c :: rest ∧ is_ascii_alnum c = true := by
  unfold re_match_name at h
  rw [Bool.or_eq_true] at h
  cases cs with
  | nil =>
      rcases h with h | h
      · simp [name_core_match] at h
      · rw [Bool.and_eq_true] at h
        simp [name_core_match] at h
  | cons c rest =>
      rcases h with h | h
      · rw [name_core_match, Bool.and_eq_true] at h
        exact ⟨c, rest, rfl, h.1⟩
      · rw [Bool.and_eq_true] at h
        have h2 := h.2
        cases rest with
        | nil => simp [name_core_match] at h2
        | cons b m =>
            rw [List.dropLast_cons₂, name_core_match, Bool.and_eq_true] at h2
            exact ⟨c, b :: m, rfl, h2.1⟩

/-- A regex-accepted model name is a clean directory component: it is not
one of the unwanted directory names and does not start with a dot. -/
theorem valid_name_component (n : String) (h : re_match_name n.data = true) :
    n ∉ unwanted_dirs ∧ str_starts_with n "." = false := by
  obtain ⟨c, rest, hcs, halnum⟩ := re_match_name_head n.data h
  constructor
  · intro hmem
    rw [unwanted_dirs, List.mem_cons, List.mem_cons] at hmem
    rcases hmem with rfl | hmem
    · rw [show ("__MACOSX" : String).data =
        '_' :: "_MACOSX".data from rfl] at hcs
      rw [List.cons.injEq] at hcs
      rw [← hcs.1] at halnum
      simp [is_ascii_alnum] at halnum
    · rcases hmem with rfl | hmem
      · rw [show ("__pycache__" : String).data =
          '_' :: "_pycache__".data from rfl] at hcs
        rw [List.cons.injEq] at hcs
        rw [← hcs.1] at halnum
        simp [is_ascii_alnum] at halnum
      · simp at hmem
  · rw [str_starts_with, hcs, show ("." : String).data = ['.'] from rfl]
    rw [show List.isPrefixOf ['.'] (c :: rest) = ('.' == c) from by
      simp [List.isPrefixOf]]
    rw [beq_eq_false_iff_ne]
    intro hc
    rw [← hc] at halnum
    simp [is_ascii_alnum] at halnum

/-- C1: for every source tree and packaging run in either format, every
entry in the produced container is either the deliberately added manifest
entry or a clean entry: its base filename is not the reserved manifest
name, not in the excluded-originals set and has none of the unwanted
suffixes, and no directory component on its path is unwanted or
dot-prefixed (for tgz the run's model name passed the name check, so the
wrapping component is clean too). -/
theorem c1_filter_invariant (excl : List String) (model_name : String) (tree : FsTree) :
    (∀ entries, archive model_name tree excl "default" = .ok entries →
      ∀ p ∈ entries, p = [MAR_INF, MANIFEST_FILE_NAME] ∨ clean_entry excl p) ∧
    (re_match_name model_name.data = true →
      ∀ entries, archive model_name tree excl "tgz" = .ok entries →
        ∀ p ∈ entries, p = [model_name, MAR_INF, MANIFEST_FILE_NAME] ∨
          clean_entry excl p) := by
  constructor
  · intro entries harch p hp
    have he : entries = archive_dir excl "default" model_name [] tree ++
        [[MAR_INF, MANIFEST_FILE_NAME]] := by
      simp [archive] at harch
      exact harch.symm
    subst he
    rcases List.mem_append.1 hp with h | h
    · right
      obtain ⟨q, _, hg, heq⟩ := (mem_archive_dir excl "default" model_name tree [] p).1 h
      rw [heq]
      simpa [arc_entry] using good_path_clean excl q hg
    · left
      exact List.mem_singleton.1 h
  · intro hname entries harch p hp
    have he : entries = archive_dir excl "tgz" model_name [] tree ++
        [[model_name, MAR_INF, MANIFEST_FILE_NAME]] := by
      simp [archive] at harch
      exact harch.symm
    subst he
    rcases List.mem_append.1 hp with h | h
    · right
      obtain ⟨q, hq, hg, heq⟩ := (mem_archive_dir excl "tgz" model_name tree [] p).1 h
      rw [heq]
      have hqn : q ≠ [] := all_paths_tree_ne_nil tree q hq
      have hcomp := valid_name_component model_name hname
      have harc : arc_entry "tgz" model_name [] q = model_name :: q := by
        simp [arc_entry]
      rw [harc]
      obtain ⟨_, hdirs, h1, h2, h3, h4, h5⟩ := good_path_clean excl q hg
      refine ⟨by simp, ?_, ?_, ?_, ?_, ?_, ?_⟩
      · intro x hx
        cases q with
        | nil => exact absurd rfl hqn
        | cons b m =>
            rw [List.dropLast_cons₂] at hx
            rcases List.mem_cons.1 hx with rfl | hx
            · exact hcomp
            · exact hdirs x hx
      all_goals
        cases q with
        | nil => exact absurd rfl hqn
        | cons b m =>
            simp only [List.getLastD_cons] at h1 h2 h3 h4 h5 ⊢
            assumption
    · left
      exact List.mem_singleton.1 h

/-- Witness for C1 on a concrete tree packaged as tgz under the validated
name `m`, with an excluded original `a.onnx`. -/
theorem c1_filter_invariant_witness :
    re_match_name ("m" : String).data = true ∧
    archive "m" (FsTree.node ["handler.py", "x.pyc", "a.onnx"] .nil)
        ["a.onnx"] "tgz" =
      .ok [["m", "handler.py"], ["m", "MAR-INF", "MANIFEST.json"]] ∧
    (∀ p ∈ [["m", "handler.py"], ["m", "MAR-INF", "MANIFEST.json"]],
      p = ["m", MAR_INF, MANIFEST_FILE_NAME] ∨ clean_entry ["a.onnx"] p) := by
  refine ⟨by decide, by rfl, ?_⟩
  exact (c1_filter_invariant ["a.onnx"] "m"
      (FsTree.node ["handler.py", "x.pyc", "a.onnx"] .nil)).2 (by decide) _ (by rfl)

/-- A character list is a Boolean prefix of itself followed by anything. -/
theorem isPrefixOf_append_self (l m : List Char) :
    List.isPrefixOf l (l ++ m) = true := by
  induction l with
  | nil => simp [List.isPrefixOf]
  | cons a as ih => simp [List.isPrefixOf]

/-- A string starts with any of its prefixes. -/
theorem str_starts_with_append (a b : String) :
    str_starts_with (a ++ b) a = true := by
  rw [str_starts_with, String.data_append]
  exact isPrefixOf_append_self a.data b.data

/-- On a nonempty tail, the entry name splits at its first component. -/
theorem entry_name_cons (n : String) (q : List String) (hq : q ≠ []) :
    entry_name (n :: q) = n ++ "/" ++ entry_name q := by
  cases q with
  | nil => exact absurd rfl hq
  | cons b m => rfl

/-- C2: default-format packaging produces exactly the filter-accepted
files of the tree under their relative component paths plus the manifest
entry at `MAR-INF/MANIFEST.json` written last; tgz packaging produces
entries whose names all start with `<model_name>/`, with the manifest
entry at `<model_name>/MAR-INF/MANIFEST.json` written last. -/
theorem c2_entry_sets (model_name : String) (tree : FsTree) (excl : List String) :
    (∃ entries, archive model_name tree excl "default" = .ok entries ∧
      (∀ p, p ∈ entries ↔
        ((p ∈ all_paths_tree tree ∧ good_path excl p = true) ∨
          p = [MAR_INF, MANIFEST_FILE_NAME])) ∧
      entries.getLast? = some [MAR_INF, MANIFEST_FILE_NAME]) ∧
    (∃ entries, archive model_name tree excl "tgz" = .ok entries ∧
      (∀ p ∈ entries, str_starts_with (entry_name p) (model_name ++ "/") = true) ∧
      entries.getLast? = some [model_name, MAR_INF, MANIFEST_FILE_NAME]) := by
  constructor
  · refine ⟨archive_dir excl "default" model_name [] tree ++
      [[MAR_INF, MANIFEST_FILE_NAME]], by simp [archive], ?_, ?_⟩
    · intro p
      rw [List.mem_append, List.mem_singleton,
        mem_archive_dir excl "default" model_name tree [] p]
      constructor
      · rintro (⟨q, hq, hg, heq⟩ | heq)
        · left
          have : arc_entry "default" model_name [] q = q := by simp [arc_entry]
          rw [this] at heq
          rw [heq]
          exact ⟨hq, hg⟩
        · right
          exact heq
      · rintro (⟨hp, hg⟩ | heq)
        · left
          exact ⟨p, hp, hg, by simp [arc_entry]⟩
        · right
          exact heq
    · exact List.getLast?_concat _
  · refine ⟨archive_dir excl "tgz" model_name [] tree ++
      [[model_name, MAR_INF, MANIFEST_FILE_NAME]], by simp [archive], ?_, ?_⟩
    · intro p hp
      rcases List.mem_append.1 hp with h | h
      · obtain ⟨q, hq, _, heq⟩ :=
          (mem_archive_dir excl "tgz" model_name tree [] p).1 h
        have hqn : q ≠ [] := all_paths_tree_ne_nil tree q hq
        have : arc_entry "tgz" model_name [] q = model_name :: q := by
          simp [arc_entry]
        rw [this] at heq
        rw [heq, entry_name_cons model_name q hqn]
        exact str_starts_with_append (model_name ++ "/") (entry_name q)
      · rw [List.mem_singleton.1 h]
        rw [show entry_name [model_name, MAR_INF, MANIFEST_FILE_NAME] =
          model_name ++ "/" ++ entry_name [MAR_INF, MANIFEST_FILE_NAME] from rfl]
        exact str_starts_with_append (model_name ++ "/") _
    · exact List.getLast?_concat _

/-- Witness for C2 at a concrete tree: the default-format entry list ends
with the manifest entry and the membership characterization holds at a
concrete entry. -/
theorem c2_entry_sets_witness :
    ∃ entries, archive "m" (FsTree.node ["handler.py", "x.pyc"] .nil)
        ["a.onnx"] "default" = .ok entries ∧
      (["handler.py"] ∈ entries ↔
        ((["handler.py"] ∈ all_paths_tree (FsTree.node ["handler.py", "x.pyc"] .nil) ∧
          good_path ["a.onnx"] ["handler.py"] = true) ∨
          ["handler.py"] = [MAR_INF, MANIFEST_FILE_NAME])) ∧
      entries.getLast? = some [MAR_INF, MANIFEST_FILE_NAME] := by
  obtain ⟨entries, h1, h2, h3⟩ :=
    (c2_entry_sets "m" (FsTree.node ["handler.py", "x.pyc"] .nil) ["a.onnx"]).1
  exact ⟨entries, h1, h2 ["handler.py"], h3⟩

/-- Witness for C7: with an engine and no email supplied, the sections
hold an engine entry and no publisher entry. -/
theorem c7_optional_sections_witness :
    (∃ v, ("engine", v) ∈
      manifest_sections ⟨"m", "h.py", "python", some "MXNet", some "au", none, "t"⟩) ∧
    ¬(∃ v, ("publisher", v) ∈
      manifest_sections ⟨"m", "h.py", "python", some "MXNet", some "au", none, "t"⟩) := by
  have h := c7_optional_sections ⟨"m", "h.py", "python", some "MXNet", some "au", none, "t"⟩
  refine ⟨h.1.mpr (by decide), fun hex => ?_⟩
  have h2 := h.2.1.mp hex
  simp at h2

/-- Witness for C8 at a concrete export directory and name, with the
joined path spelled out. -/
theorem c8_target_path_witness :
    get_archive_export_path "/out" "m" "default" = path_join "/out" ("m" ++ ".mar") ∧
    get_archive_export_path "/out" "m" "tgz" = path_join "/out" ("m" ++ ".tar.gz") ∧
    get_archive_export_path "/out" "m" "default" = "/out/m.mar" ∧
    get_archive_export_path "/out" "m" "tgz" = "/out/m.tar.gz" :=
  ⟨(c8_target_path "/out" "m").1, (c8_target_path "/out" "m").2, by rfl, by rfl⟩

/-- Witness for the amended C3: a policy-matching name passes and a name
with a character outside the set fails with `InvalidName`. -/
theorem c3_name_validation_amended_witness :
    check_model_name_regex_or_exit "my-model.1" = .ok () ∧
    check_model_name_regex_or_exit "bad&name" = .error .invalidName := by
  constructor
  · exact (c3_name_validation_amended "my-model.1").1.mpr
      (Or.inl ⟨'m', "y-model.1".data, by decide, by decide, by decide⟩)
  · exact (c3_name_validation_amended "bad&name").2
      (by rw [show check_model_name_regex_or_exit "bad&name" =
        Except.error .invalidName from rfl]; simp)
